import Mathlib

/-
  Verification development for the rollplayerlib2 dice engine
  (rollplayerlib2/main.py).  The Python source is shallowly embedded:
  pure methods become Lean functions, the random source becomes an
  explicit stream of naturals, exceptions become an `Except` error
  channel, and Python lists become Lean lists (die draws are integers,
  modifier arithmetic is carried out over the rationals, which model
  the exact arithmetic the claims are about).
-/

namespace Rollplayer

/-- Error channel.  `hard` models `LimitException`, `upsell` models
`RollplayerGamemasterUpsellException`, `valueError` models Python
`ValueError`, `zeroDivision` models Python `ZeroDivisionError`.  The
constructors are distinct, which is how the source distinguishes the
recoverable upsell from the hard limit. -/
inductive RollErr where
  | hard (msg : String)
  | upsell (msg : String)
  | valueError (msg : String)
  | zeroDivision
deriving DecidableEq

/-- The random source: an infinite stream of naturals.  `randint`
consumes the head and shifts the stream. -/
def RNG : Type := Nat → Nat

/-- Embedding of `random.randint(low, high)`: a uniform integer in
`[low, high]` (valid when `low ≤ high`, which `Range.swap_if_needed`
guarantees in the source), realised as `low + s % (high - low + 1)`
on the next stream element. -/
def randint (low high : Int) (g : RNG) : Int × RNG :=
  (low + (g 0 : Int) % (high - low + 1), fun n => g (n + 1))

/-- Embedding of `Range` dataclass: the bounds of one die. -/
structure Range where
  low : Int
  high : Int
deriving DecidableEq

/-- Embedding of `ConditionType` enum (the `c_*` tags of the grammar). -/
inductive ConditionType where
  | c_gt | c_gte | c_lt | c_lte | c_equ | c_neq | c_bet | c_max
deriving DecidableEq

/-- Embedding of `Condition` dataclass. -/
structure Condition where
  condition_type : ConditionType
  threshold : ℚ
  threshold2 : Option ℚ := none
deriving DecidableEq

/-- Embedding of `KeepType` enum. -/
inductive KeepType where
  | higher | lower
deriving DecidableEq

/-- Embedding of `Keep` dataclass. -/
structure Keep where
  keep_type : KeepType
  quantity : Nat
deriving DecidableEq

/-- Embedding of `ExplosionType` enum. -/
inductive ExplosionType where
  | exp_infinite | exp_reductive
deriving DecidableEq

/-- Embedding of `Explosion` dataclass. -/
structure Explosion where
  explosion_type : ExplosionType
  conditions : List Condition
  limit : Int
deriving DecidableEq

/-- Embedding of `Reroll` dataclass. -/
structure Reroll where
  conditions : List Condition
  limit : Int
deriving DecidableEq

/-- Embedding of `ConditionalDrop` dataclass. -/
structure ConditionalDrop where
  conditions : List Condition
deriving DecidableEq

/-- Embedding of `Operator` enum (`t_add` etc.). -/
inductive Operator where
  | t_add | t_sub | t_div | t_mul
deriving DecidableEq

/-- Embedding of `TargetedOperation` dataclass. -/
structure TargetedOperation where
  operator : Operator
  value : ℚ
deriving DecidableEq

/-- Embedding of `TargetedOperation.apply`; division by zero is the uncaught Python
`ZeroDivisionError`. -/
def TargetedOperation.apply (self : TargetedOperation) (roll_value : ℚ) :
    Except RollErr ℚ :=
  match self.operator with
  | .t_add => .ok (roll_value + self.value)
  | .t_sub => .ok (roll_value - self.value)
  | .t_div =>
      if self.value = 0 then .error .zeroDivision
      else .ok (roll_value / self.value)
  | .t_mul => .ok (roll_value * self.value)

/-- Embedding of `TargetedBonus` dataclass: `targets = none` is the wildcard. -/
structure TargetedBonus where
  targets : Option (List Int)
  operations : List TargetedOperation
deriving DecidableEq

/-- Embedding of `Modifiers` dataclass. -/
structure Modifiers where
  targeted_bonuses : List TargetedBonus
  keep_lower : Option Keep
  keep_higher : Option Keep
  explosion : Option Explosion
  rerolls : List Reroll
  drops : List ConditionalDrop
deriving DecidableEq

/-- Embedding of `Roll` dataclass (results fields start out empty, `process` fills
them). -/
structure Roll where
  quantity : Nat
  range : Range
  modifiers : Modifiers
  results : List ℚ := []
  results_original : List Int := []

/-- Embedding of `RollResult` dataclass. -/
structure RollResult where
  results : List ℚ
  results_original : List Int
deriving DecidableEq

/-- Embedding of `RollResult.total_value` property. -/
def RollResult.total_value (self : RollResult) : ℚ :=
  self.results.sum

/-- The effective `RollResult.__truediv__` for a numeric right operand.
The class body defines `__truediv__` twice (main.py lines 265-277);
Python executes the class body top to bottom, so the second definition
shadows the first, and the method that actually runs on `r / n`
returns `other / self.total_value`.  A zero total is Python
`ZeroDivisionError`. -/
def RollResult.truediv_num (self : RollResult) (other : ℚ) :
    Except RollErr ℚ :=
  if self.total_value = 0 then .error .zeroDivision
  else .ok (other / self.total_value)

/-- The effective `RollResult.__truediv__` for a `RollResult` right
operand (again the second, shadowing definition). -/
def RollResult.truediv_roll (self other : RollResult) :
    Except RollErr ℚ :=
  if self.total_value = 0 then .error .zeroDivision
  else .ok (other.total_value / self.total_value)

/-- Embedding of `RollResult.__neg__`: the loop writes `-result` back into every
slot of `results` and returns the object; `results_original` is not
touched. -/
def RollResult.neg (self : RollResult) : RollResult :=
  { self with results := self.results.map (fun x => -x) }

/-- Indices of `results` entries satisfying a boolean predicate, in
ascending order — the value of the `[i for i, result in
enumerate(roll.results) if ...]` comprehensions. -/
def matchingIdx (xs : List ℚ) (p : ℚ → Bool) : List Nat :=
  (List.range xs.length).filter (fun i => p (xs.getD i 0))

/-- Embedding of `Condition.condition_match`: the list of indices of `roll.results`
matching the condition.  A `BETWEEN` condition without a second
threshold raises `ValueError` as in the source. -/
def Condition.condition_match (self : Condition) (roll : Roll) :
    Except RollErr (List Nat) :=
  match self.condition_type with
  | .c_gt => .ok (matchingIdx roll.results (fun x => decide (self.threshold < x)))
  | .c_gte => .ok (matchingIdx roll.results (fun x => decide (self.threshold ≤ x)))
  | .c_lt => .ok (matchingIdx roll.results (fun x => decide (x < self.threshold)))
  | .c_lte => .ok (matchingIdx roll.results (fun x => decide (x ≤ self.threshold)))
  | .c_equ => .ok (matchingIdx roll.results (fun x => decide (x = self.threshold)))
  | .c_neq => .ok (matchingIdx roll.results (fun x => decide (x ≠ self.threshold)))
  | .c_bet =>
      match self.threshold2 with
      | none => .error (.valueError "threshold2 must be set for BETWEEN condition")
      | some t2 =>
          .ok (matchingIdx roll.results (fun x =>
            decide (min self.threshold t2 ≤ x ∧ x ≤ max self.threshold t2)))
  | .c_max =>
      .ok (matchingIdx roll.results (fun x => decide (x = (roll.range.high : ℚ))))

/-- Sequences `condition_match` over a condition list, keeping the
first raised error (the loops in the source visit conditions in
order). -/
def conds_matches (conds : List Condition) (roll : Roll) :
    Except RollErr (List (List Nat)) :=
  match conds with
  | [] => .ok []
  | c :: cs =>
      match c.condition_match roll, conds_matches cs roll with
      | .error e, _ => .error e
      | .ok _, .error e => .error e
      | .ok l, .ok ls => .ok (l :: ls)

/-- The union of the per-condition index sets, as an ascending list —
the Python `set` union `to_reroll`/`to_drop` (only membership in the
set is observable downstream). -/
def union_indices (n : Nat) (ls : List (List Nat)) : List Nat :=
  (List.range n).filter (fun i => ls.any (fun l => l.contains i))

/-- Insertion of one element into an already-sorted list. -/
def insertSorted (le : ℚ → ℚ → Bool) (x : ℚ) : List ℚ → List ℚ
  | [] => [x]
  | y :: ys => if le x y then x :: y :: ys else y :: insertSorted le x ys

/-- Insertion sort, the sorting kernel used to model `heapq`
selection (only the multiset of the selected prefix is observable). -/
def isort (le : ℚ → ℚ → Bool) : List ℚ → List ℚ
  | [] => []
  | x :: xs => insertSorted le x (isort le xs)

/-- Embedding of `heapq.nsmallest n xs`: the `n` smallest elements. -/
def nsmallest (n : Nat) (xs : List ℚ) : List ℚ :=
  (isort (fun a b => decide (a ≤ b)) xs).take n

/-- Embedding of `heapq.nlargest n xs`: the `n` largest elements. -/
def nlargest (n : Nat) (xs : List ℚ) : List ℚ :=
  (isort (fun a b => decide (b ≤ a)) xs).take n

/-- Removal of the first occurrence of `x` — one `Counter` decrement. -/
def eraseOne (x : ℚ) : List ℚ → List ℚ
  | [] => []
  | y :: ys => if y = x then ys else y :: eraseOne x ys

/-- The final loop of `process_keeps`: walk `results` left to right and
keep each value while the `Counter` built from the selected elements
still has budget for it. -/
def keepFilter : List ℚ → List ℚ → List ℚ
  | [], _ => []
  | x :: xs, counts =>
      if x ∈ counts then x :: keepFilter xs (eraseOne x counts)
      else keepFilter xs counts

/-- The `try: ... .quantity except AttributeError: 0` idiom of
`process_keeps`: the quantity of an optional keep, zero when absent. -/
def keep_qty : Option Keep → Nat
  | some k => k.quantity
  | none => 0

/-- Embedding of `Roll.process_keeps` (main.py lines 340-362). -/
def Roll.process_keeps (self : Roll) : Except RollErr Roll :=
  if self.modifiers.keep_higher.isNone && self.modifiers.keep_lower.isNone then
    .ok self
  else
    if keep_qty self.modifiers.keep_higher = 0 ∧
        keep_qty self.modifiers.keep_lower = 0 then
      .error (.hard "You can\x27t keep nothing!")
    else
      .ok { self with results :=
        (keepFilter self.results
          ((if 0 < keep_qty self.modifiers.keep_lower then
              nsmallest (keep_qty self.modifiers.keep_lower) self.results
            else []) ++
           (if 0 < keep_qty self.modifiers.keep_higher then
              nlargest (keep_qty self.modifiers.keep_higher) self.results
            else []))) }

/-- Embedding of `Roll.process_drops` (main.py lines 364-372): union the matched
indices of every condition of every drop clause, then delete them in
descending order. -/
def Roll.process_drops (self : Roll) : Except RollErr Roll :=
  match conds_matches ((self.modifiers.drops.map ConditionalDrop.conditions).flatten) self with
  | .error e => .error e
  | .ok ls =>
      let std := (union_indices self.results.length ls).reverse
      .ok { self with results := std.foldl (fun acc idx => acc.eraseIdx idx) self.results }

/-- One reroll round: redraw a fresh value at every matched index. -/
def redraw_indices (low high : Int) : List Nat → List ℚ → RNG → List ℚ × RNG
  | [], xs, g => (xs, g)
  | i :: is, xs, g =>
      let p := randint low high g
      redraw_indices low high is (xs.set i (p.1 : ℚ)) p.2

/-- The `to_reroll` set computation of one reroll round: the union of
the indices matched by the clause conditions against the current
results. -/
def Roll.reroll_matches (self : Roll) (rr : Reroll) : Except RollErr (List Nat) :=
  match conds_matches rr.conditions self with
  | .error e => .error e
  | .ok ls => .ok (union_indices self.results.length ls)

/-- The `for attempt in range(rr.limit)` loop of `process_rerolls` for
one `Reroll` clause, with the remaining attempts as fuel; also returns
the number of redraw rounds that were executed. -/
def rerollLoop (rr : Reroll) : Nat → Roll → RNG → Except RollErr (Roll × RNG × Nat)
  | 0, r, g => .ok (r, g, 0)
  | fuel + 1, r, g =>
      match r.reroll_matches rr with
      | .error e => .error e
      | .ok to_reroll =>
          if to_reroll.isEmpty then .ok (r, g, 0)
          else
            match rerollLoop rr fuel
                { r with results :=
                    (redraw_indices r.range.low r.range.high to_reroll r.results g).1 }
                (redraw_indices r.range.low r.range.high to_reroll r.results g).2 with
            | .error e => .error e
            | .ok (r', g'', k) => .ok (r', g'', k + 1)

/-- Processing of a single `Reroll` clause (`range(rr.limit)` is empty
when the limit is not positive, hence the `toNat` fuel). -/
def Roll.process_reroll_clause (self : Roll) (rr : Reroll) (g : RNG) :
    Except RollErr (Roll × RNG × Nat) :=
  rerollLoop rr rr.limit.toNat self g

/-- The outer clause loop of `Roll.process_rerolls` (main.py lines
374-382). -/
def rerolls_go : List Reroll → Roll → RNG → Except RollErr (Roll × RNG)
  | [], r, g => .ok (r, g)
  | rr :: rest, r, g =>
      match r.process_reroll_clause rr g with
      | .error e => .error e
      | .ok (r', g', _) => rerolls_go rest r' g'

/-- Embedding of `Roll.process_rerolls`. -/
def Roll.process_rerolls (self : Roll) (g : RNG) : Except RollErr (Roll × RNG) :=
  rerolls_go self.modifiers.rerolls self g

/-- Whether a single explosion condition matches `v` (the body of one
iteration of the loop in `_check_value_meets_explosion_conditions`;
a `BETWEEN` without a second threshold leaves the flag `False`). -/
def cond_met (self : Roll) (c : Condition) (v : ℚ) : Bool :=
  match c.condition_type with
  | .c_gt => decide (c.threshold < v)
  | .c_gte => decide (c.threshold ≤ v)
  | .c_lt => decide (v < c.threshold)
  | .c_lte => decide (v ≤ c.threshold)
  | .c_equ => decide (v = c.threshold)
  | .c_neq => decide (v ≠ c.threshold)
  | .c_bet =>
      match c.threshold2 with
      | none => false
      | some t2 => decide (min c.threshold t2 ≤ v ∧ v ≤ max c.threshold t2)
  | .c_max => decide (v = (self.range.high : ℚ))

/-- Embedding of `Roll._check_value_meets_explosion_conditions` (main.py lines
305-338).  The loop body resets `condition_met` on every iteration and
the `return` sits after the loop, so the returned flag is the match
result of the LAST condition alone — embedded faithfully as a `foldl`
that discards the accumulator. -/
def Roll.check_value_meets_explosion_conditions (self : Roll) (value_to_check : ℚ) : Bool :=
  match self.modifiers.explosion with
  | none => false
  | some e =>
      if e.conditions.isEmpty then false
      else e.conditions.foldl (fun _ c => cond_met self c value_to_check) false

/-- The `while True` chain loop of `process_explosion` for one element,
with the remaining attempts (`limit - count`) as fuel: while the value
just drawn passes the check and attempts remain, draw again and add it
to the running total. -/
def explodeAt (self : Roll) : Nat → ℚ → ℚ → RNG → ℚ × RNG
  | 0, total, _, g => (total, g)
  | fuel + 1, total, current, g =>
      if self.check_value_meets_explosion_conditions current then
        let (v, g') := randint self.range.low self.range.high g
        explodeAt self fuel (total + (v : ℚ)) (v : ℚ) g'
      else (total, g)

/-- The per-index loop of `process_explosion`, left to right. -/
def explodeList (self : Roll) (limit : Nat) : List ℚ → RNG → List ℚ × RNG
  | [], g => ([], g)
  | x :: xs, g =>
      let p := explodeAt self limit x x g
      let q := explodeList self limit xs p.2
      (p.1 :: q.1, q.2)

/-- Embedding of `Roll.process_explosion` (main.py lines 384-406). -/
def Roll.process_explosion (self : Roll) (g : RNG) : Roll × RNG :=
  match self.modifiers.explosion with
  | none => (self, g)
  | some e =>
      if self.results.isEmpty ∨ e.limit ≤ 0 ∨ e.conditions.isEmpty then (self, g)
      else
        let p := explodeList self e.limit.toNat self.results g
        ({ self with results := p.1 }, p.2)

/-- Python list indexing: negative indices count from the end;
`none` is `IndexError`. -/
def pyIdx (n : Nat) (i : Int) : Option Nat :=
  let j := if i < 0 then i + n else i
  if 0 ≤ j ∧ j < n then some j.toNat else none

/-- One assignment `roll.results[target-1] = operation.apply(...)`;
an out-of-range index is the `IndexError` that `TargetedBonus.apply`
converts into a `LimitException`. -/
def applyToTarget (op : TargetedOperation) (xs : List ℚ) (target : Int) :
    Except RollErr (List ℚ) :=
  match pyIdx xs.length (target - 1) with
  | none => .error (.hard "You can\x27t add a bonus to a non-existant dice! [You may have gone too far due to auto]")
  | some j =>
      match op.apply (xs.getD j 0) with
      | .error e => .error e
      | .ok v => .ok (xs.set j v)

/-- The inner `for target in self.targets` loop. -/
def applyOpTargets (op : TargetedOperation) : List Int → List ℚ →
    Except RollErr (List ℚ)
  | [], xs => .ok xs
  | t :: ts, xs =>
      match applyToTarget op xs t with
      | .error e => .error e
      | .ok xs' => applyOpTargets op ts xs'

/-- The outer `for operation in self.operations` loop. -/
def applyOps (targets : List Int) : List TargetedOperation → List ℚ →
    Except RollErr (List ℚ)
  | [], xs => .ok xs
  | op :: ops, xs =>
      match applyOpTargets op targets xs with
      | .error e => .error e
      | .ok xs' => applyOps targets ops xs'

/-- The body of `TargetedBonus.apply` once the wildcard has been
resolved: index 0 is a hard error, then the operations are applied in
order to each target. -/
def bonus_apply_with (targets : List Int) (ops : List TargetedOperation)
    (roll : Roll) : Except RollErr Roll :=
  if targets.contains 0 then
    .error (.hard "You can\x27t add a bonus to a 0th dice!")
  else
    match applyOps targets ops roll.results with
    | .error e => .error e
    | .ok res => .ok { roll with results := res }

/-- Embedding of `TargetedBonus.apply` (main.py lines 95-104): a wildcard resolves
to all current 1-based indices (`range(1, len(roll.results)+1)`). -/
def TargetedBonus.apply (self : TargetedBonus) (roll : Roll) : Except RollErr Roll :=
  bonus_apply_with
    (match self.targets with
      | none => (List.range roll.results.length).map (fun i => (i : Int) + 1)
      | some ts => ts)
    self.operations roll

/-- The clause loop of `Roll.process_targeted_bonuses`. -/
def bonuses_go : List TargetedBonus → Roll → Except RollErr Roll
  | [], r => .ok r
  | tb :: rest, r =>
      match tb.apply r with
      | .error e => .error e
      | .ok r' => bonuses_go rest r'

/-- Embedding of `Roll.process_targeted_bonuses` (main.py lines 408-410). -/
def Roll.process_targeted_bonuses (self : Roll) : Except RollErr Roll :=
  bonuses_go self.modifiers.targeted_bonuses self

/-- The initial draw loop of `Roll.process`: `quantity` consecutive
`randint` draws. -/
def drawList (low high : Int) : Nat → RNG → List Int × RNG
  | 0, g => ([], g)
  | n + 1, g =>
      let p := randint low high g
      let q := drawList low high n p.2
      (p.1 :: q.1, q.2)

/-- The modifier half of `Roll.process`: the five stage calls in the
source's order keep → drop → reroll → explosion → targeted bonus. -/
def stage_pipeline (r1 : Roll) (g1 : RNG) : Except RollErr (Roll × RNG) :=
  match r1.process_keeps with
  | .error e => .error e
  | .ok r2 =>
      match r2.process_drops with
      | .error e => .error e
      | .ok r3 =>
          match r3.process_rerolls g1 with
          | .error e => .error e
          | .ok (r4, g2) =>
              match (r4.process_explosion g2).1.process_targeted_bonuses with
              | .error e => .error e
              | .ok r6 => .ok (r6, (r4.process_explosion g2).2)

/-- Embedding of `Roll.process` (main.py lines 412-422): draw `quantity` values,
copy them into `results` and (as `results.copy()`) into
`results_original`, then run the modifier stages. -/
def Roll.process (self : Roll) (g : RNG) : Except RollErr (Roll × RNG) :=
  let p := drawList self.range.low self.range.high self.quantity g
  stage_pipeline
    { self with
      results := p.1.map (fun v => (Int.cast v : ℚ)),
      results_original := p.1 } p.2

/-- Embedding of `DiceRollTransformer.check_qty` (main.py lines 529-536): the
dice-quantity limit check, parameterized by the transformer fields
`dice_count_limit` and `gamemaster`. -/
def check_qty (dice_count_limit : Nat) (gamemaster : Bool) (limit : Nat) :
    Except RollErr Nat :=
  if limit = 0 then
    .error (.hard "You can\x27t roll zero dice!")
  else if limit ≤ dice_count_limit then
    .ok limit
  else if !gamemaster then
    .error (.upsell ("You can\x27t increase the dice quantity past " ++
      toString dice_count_limit ++ " without Rollplayer Gamemaster."))
  else
    .error (.hard ("The quantity limit of " ++
      toString dice_count_limit ++ " was reached."))

/-- The stages of the evaluation pipeline run by the three module-level
transformer coroutines (`parser.parse` plus the five `Transformer`
passes). -/
inductive Stage where
  | parse
  | base_transform
  | explode_limit
  | reroll_limit
  | dice_roll
  | math_transform
deriving DecidableEq

/-- The time-boxing structure of one transformer coroutine, read off
the lexical scoping of its `with stopit.ThreadingTimeout(budget)`
block: `staged_inside` are the statements inside the block (subject to
abort once `budget` seconds elapse), `staged_after` the statements
after it, and `timeout_error` the error raised when the block was
aborted. -/
structure TimeboxedPipeline where
  budget : Nat
  staged_inside : List Stage
  staged_after : List Stage
  timeout_error : RollErr

/-- Abstract execution of a timeboxed pipeline against per-stage
running times: the `ThreadingTimeout` block aborts exactly when the
stages inside it need more than the budget, in which case the
`if to_ctx_mgr` epilogue raises the timeout error and no result is
returned; stages outside the block are never charged against the
budget. -/
def run_supervised (p : TimeboxedPipeline) (cost : Stage → Nat) :
    Except RollErr (List Stage) :=
  if p.budget < (p.staged_inside.map cost).sum then .error p.timeout_error
  else .ok (p.staged_inside ++ p.staged_after)

/-- Embedding of `transformer_default` (main.py lines 593-610): all six pipeline
stages are lexically inside the `ThreadingTimeout(2)` block. -/
def transformer_default_pipeline : TimeboxedPipeline where
  budget := 2
  staged_inside := [.parse, .base_transform, .explode_limit, .reroll_limit,
    .dice_roll, .math_transform]
  staged_after := []
  timeout_error := .hard "The roll timed out (2s)."

/-- Embedding of `transformer_gm` (main.py lines 612-629): all six stages inside the
`ThreadingTimeout(4)` block. -/
def transformer_gm_pipeline : TimeboxedPipeline where
  budget := 4
  staged_inside := [.parse, .base_transform, .explode_limit, .reroll_limit,
    .dice_roll, .math_transform]
  staged_after := []
  timeout_error := .hard "The roll timed out (4s)."

/-- Embedding of `transformer_nongm` (main.py lines 631-648), the restricted tier:
the `with stopit.ThreadingTimeout(2)` block contains ONLY the
`assert` statement — every pipeline stage sits after the block, at
function-body indentation (lines 638-643). -/
def transformer_nongm_pipeline : TimeboxedPipeline where
  budget := 2
  staged_inside := []
  staged_after := [.parse, .base_transform, .explode_limit, .reroll_limit,
    .dice_roll, .math_transform]
  timeout_error := .upsell "The roll timed out (2s). You can extend the timeout window with Rollplayer Gamemaster."

/-- Empty modifier set, for concrete witnesses. -/
def noMods : Modifiers where
  targeted_bonuses := []
  keep_lower := none
  keep_higher := none
  explosion := none
  rerolls := []
  drops := []

/-- A deterministic sample random stream. -/
def sampleG : RNG := fun n => n

/-- A plain `2d6` roll, for concrete witnesses. -/
def sampleRoll : Roll where
  quantity := 2
  range := ⟨1, 6⟩
  modifiers := noMods

/-- The computed outcome of processing `sampleRoll` with `sampleG`. -/
def sampleOut : Roll × RNG :=
  match sampleRoll.process sampleG with
  | .ok out => out
  | .error _ => (sampleRoll, sampleG)

/-- A roll whose drawn results are the spec example `[10,10,3,7,1]`
with a `kh2` modifier, for the keep-stage witnesses. -/
def keepRoll : Roll where
  quantity := 5
  range := ⟨1, 20⟩
  modifiers := { noMods with keep_higher := some ⟨KeepType.higher, 2⟩ }
  results := [10, 10, 3, 7, 1]
  results_original := [10, 10, 3, 7, 1]

/-- The computed outcome of the keep stage on `keepRoll`. -/
def keepOut : Roll :=
  match keepRoll.process_keeps with
  | .ok r => r
  | .error _ => keepRoll

/-- A `1d6` roll holding a 1, for the reroll-clause witness. -/
def rerollRoll : Roll where
  quantity := 1
  range := ⟨1, 6⟩
  modifiers := noMods
  results := [1]
  results_original := [1]

/-- A reroll clause `rr{=1}:5`. -/
def sampleRerollClause : Reroll where
  conditions := [⟨ConditionType.c_equ, 1, none⟩]
  limit := 5

/-- The computed outcome of the sample reroll clause on `rerollRoll`. -/
def rerollOut : Roll × RNG × Nat :=
  match rerollRoll.process_reroll_clause sampleRerollClause sampleG with
  | .ok out => out
  | .error _ => (rerollRoll, sampleG, 0)

/-- A `1d6` roll holding a 6 whose explosion clause has the two
conditions `=6, =5` (in that order) and limit 3 — the concrete input
on which the last-condition-only flaw of
`_check_value_meets_explosion_conditions` is visible. -/
def expRoll : Roll where
  quantity := 1
  range := ⟨1, 6⟩
  modifiers := { noMods with
    explosion := some ⟨ExplosionType.exp_infinite,
      [⟨ConditionType.c_equ, 6, none⟩, ⟨ConditionType.c_equ, 5, none⟩], 3⟩ }
  results := [6]
  results_original := [6]

theorem randint_mem (low high : Int) (g : RNG) (h : low ≤ high) :
    low ≤ (randint low high g).1 ∧ (randint low high g).1 ≤ high := by
  have h1 : 0 ≤ (g 0 : Int) % (high - low + 1) :=
    Int.emod_nonneg _ (by omega)
  have h2 : (g 0 : Int) % (high - low + 1) < high - low + 1 :=
    Int.emod_lt_of_pos _ (by omega)
  simp only [randint]
  omega

theorem drawList_length (low high : Int) :
    ∀ (n : Nat) (g : RNG), ((drawList low high n g).1).length = n := by
  intro n
  induction n with
  | zero => intro g; rfl
  | succ k ih => intro g; simp [drawList, ih]

theorem drawList_mem (low high : Int) (h : low ≤ high) :
    ∀ (n : Nat) (g : RNG), ∀ x ∈ (drawList low high n g).1,
      low ≤ x ∧ x ≤ high := by
  intro n
  induction n with
  | zero => intro g x hx; simp [drawList] at hx
  | succ k ih =>
      intro g x hx
      simp only [drawList, List.mem_cons] at hx
      rcases hx with rfl | hx
      · exact randint_mem low high g h
      · exact ih _ x hx

theorem eraseOne_length {x : ℚ} :
    ∀ {l : List ℚ}, x ∈ l → (eraseOne x l).length + 1 = l.length := by
  intro l
  induction l with
  | nil => intro h; cases h
  | cons y ys ih =>
      intro h
      by_cases hyx : y = x
      · simp [eraseOne, hyx]
      · have hx : x ∈ ys := by
          rcases List.mem_cons.mp h with h1 | h1
          · exact absurd h1.symm hyx
          · exact h1
        simp [eraseOne, hyx, ih hx]

theorem keepFilter_sublist :
    ∀ (xs counts : List ℚ), (keepFilter xs counts).Sublist xs := by
  intro xs
  induction xs with
  | nil => intro counts; simp [keepFilter]
  | cons x xs ih =>
      intro counts
      rw [keepFilter]
      split
      · exact (ih (eraseOne x counts)).cons₂ x
      · exact (ih counts).cons x

theorem keepFilter_length_le :
    ∀ (xs counts : List ℚ), (keepFilter xs counts).length ≤ counts.length := by
  intro xs
  induction xs with
  | nil => intro counts; simp [keepFilter]
  | cons x xs ih =>
      intro counts
      rw [keepFilter]
      split
      · rename_i hx
        have h1 := ih (eraseOne x counts)
        have h2 := eraseOne_length hx
        simp only [List.length_cons]
        omega
      · exact le_trans (ih counts) (le_refl _)

theorem insertSorted_length (le : ℚ → ℚ → Bool) (x : ℚ) :
    ∀ l : List ℚ, (insertSorted le x l).length = l.length + 1 := by
  intro l
  induction l with
  | nil => rfl
  | cons y ys ih =>
      rw [insertSorted]
      split
      · simp
      · simp [ih]

theorem isort_length (le : ℚ → ℚ → Bool) :
    ∀ l : List ℚ, (isort le l).length = l.length := by
  intro l
  induction l with
  | nil => rfl
  | cons x xs ih => simp [isort, insertSorted_length, ih]

theorem nsmallest_length (n : Nat) (xs : List ℚ) :
    (nsmallest n xs).length = min n xs.length := by
  simp [nsmallest, isort_length]

theorem nlargest_length (n : Nat) (xs : List ℚ) :
    (nlargest n xs).length = min n xs.length := by
  simp [nlargest, isort_length]

theorem process_keeps_ok {r r' : Roll} (h : r.process_keeps = .ok r') :
    r'.results_original = r.results_original ∧ r'.results.Sublist r.results := by
  unfold Roll.process_keeps at h
  split at h
  · cases h
    exact ⟨rfl, List.Sublist.refl _⟩
  · split at h
    · simp at h
    · cases h
      exact ⟨rfl, keepFilter_sublist _ _⟩

theorem length_eraseIdx_le :
    ∀ (l : List ℚ) (i : Nat), (l.eraseIdx i).length ≤ l.length := by
  intro l
  induction l with
  | nil => intro i; simp [List.eraseIdx]
  | cons x xs ih =>
      intro i
      cases i with
      | zero => simp [List.eraseIdx]
      | succ j =>
          simp only [List.eraseIdx, List.length_cons]
          exact Nat.succ_le_succ (ih j)

theorem foldl_eraseIdx_length_le :
    ∀ (idxs : List Nat) (l : List ℚ),
      (idxs.foldl (fun acc idx => acc.eraseIdx idx) l).length ≤ l.length := by
  intro idxs
  induction idxs with
  | nil => intro l; simp
  | cons i is ih =>
      intro l
      exact le_trans (ih _) (length_eraseIdx_le l i)

theorem process_drops_ok {r r' : Roll} (h : r.process_drops = .ok r') :
    r'.results_original = r.results_original ∧
    r'.results.length ≤ r.results.length := by
  unfold Roll.process_drops at h
  split at h
  · simp at h
  · cases h
    exact ⟨rfl, foldl_eraseIdx_length_le _ _⟩

theorem redraw_indices_length (low high : Int) :
    ∀ (idxs : List Nat) (xs : List ℚ) (g : RNG),
      ((redraw_indices low high idxs xs g).1).length = xs.length := by
  intro idxs
  induction idxs with
  | nil => intro xs g; rfl
  | cons i is ih =>
      intro xs g
      rw [redraw_indices]
      rw [ih]
      simp

theorem rerollLoop_ok {rr : Reroll} :
    ∀ (fuel : Nat) (r : Roll) (g : RNG) (out : Roll × RNG × Nat),
      rerollLoop rr fuel r g = .ok out →
      out.1.results_original = r.results_original ∧
      out.1.results.length = r.results.length ∧
      out.2.2 ≤ fuel ∧
      (out.1.reroll_matches rr = .ok [] ∨ out.2.2 = fuel) := by
  intro fuel
  induction fuel with
  | zero =>
      intro r g out h
      cases h
      exact ⟨rfl, rfl, le_refl _, Or.inr rfl⟩
  | succ k ih =>
      intro r g out h
      rw [rerollLoop] at h
      split at h
      · simp at h
      · rename_i to_reroll hmatch
        split at h
        · rename_i hempty
          cases h
          refine ⟨rfl, rfl, Nat.zero_le _, Or.inl ?_⟩
          rw [hmatch, List.isEmpty_iff.mp hempty]
        · split at h
          · simp at h
          · rename_i r' g'' kk hrec
            cases h
            obtain ⟨h1, h2, h3, h4⟩ := ih _ _ _ hrec
            dsimp only at h1 h2 h3 h4 ⊢
            refine ⟨h1, ?_, by omega, ?_⟩
            · rw [h2]
              exact redraw_indices_length _ _ _ _ _
            · rcases h4 with h4 | h4
              · exact Or.inl h4
              · exact Or.inr (by omega)

theorem rerolls_go_ok :
    ∀ (clauses : List Reroll) (r : Roll) (g : RNG) (out : Roll × RNG),
      rerolls_go clauses r g = .ok out →
      out.1.results_original = r.results_original ∧
      out.1.results.length = r.results.length := by
  intro clauses
  induction clauses with
  | nil =>
      intro r g out h
      cases h
      exact ⟨rfl, rfl⟩
  | cons rr rest ih =>
      intro r g out h
      rw [rerolls_go] at h
      split at h
      · simp at h
      · rename_i r' g' k heq
        obtain ⟨h1, h2, _, _⟩ := rerollLoop_ok _ _ _ _ heq
        obtain ⟨h3, h4⟩ := ih _ _ _ h
        exact ⟨h3.trans h1, h4.trans h2⟩

theorem process_rerolls_ok {r : Roll} {g : RNG} {out : Roll × RNG}
    (h : r.process_rerolls g = .ok out) :
    out.1.results_original = r.results_original ∧
    out.1.results.length = r.results.length :=
  rerolls_go_ok _ _ _ _ h

theorem explodeList_length (self : Roll) (limit : Nat) :
    ∀ (xs : List ℚ) (g : RNG),
      ((explodeList self limit xs g).1).length = xs.length := by
  intro xs
  induction xs with
  | nil => intro g; rfl
  | cons x xs ih => intro g; simp [explodeList, ih]

theorem process_explosion_ok (r : Roll) (g : RNG) :
    (r.process_explosion g).1.results_original = r.results_original ∧
    (r.process_explosion g).1.results.length = r.results.length := by
  unfold Roll.process_explosion
  split
  · exact ⟨rfl, rfl⟩
  · split
    · exact ⟨rfl, rfl⟩
    · exact ⟨rfl, explodeList_length _ _ _ _⟩

theorem applyToTarget_length {op : TargetedOperation} {xs : List ℚ}
    {t : Int} {xs' : List ℚ} (h : applyToTarget op xs t = .ok xs') :
    xs'.length = xs.length := by
  unfold applyToTarget at h
  split at h
  · simp at h
  · split at h
    · simp at h
    · cases h
      simp

theorem applyOpTargets_length {op : TargetedOperation} :
    ∀ {ts : List Int} {xs xs' : List ℚ},
      applyOpTargets op ts xs = .ok xs' → xs'.length = xs.length := by
  intro ts
  induction ts with
  | nil =>
      intro xs xs' h
      cases h
      rfl
  | cons t ts ih =>
      intro xs xs' h
      rw [applyOpTargets] at h
      split at h
      · simp at h
      · rename_i xs1 heq
        exact (ih h).trans (applyToTarget_length heq)

theorem applyOps_length {targets : List Int} :
    ∀ {ops : List TargetedOperation} {xs xs' : List ℚ},
      applyOps targets ops xs = .ok xs' → xs'.length = xs.length := by
  intro ops
  induction ops with
  | nil =>
      intro xs xs' h
      cases h
      rfl
  | cons op ops ih =>
      intro xs xs' h
      rw [applyOps] at h
      split at h
      · simp at h
      · rename_i xs1 heq
        exact (ih h).trans (applyOpTargets_length heq)

theorem bonus_apply_with_ok {targets : List Int}
    {ops : List TargetedOperation} {r r' : Roll}
    (h : bonus_apply_with targets ops r = .ok r') :
    r'.results_original = r.results_original ∧
    r'.results.length = r.results.length := by
  unfold bonus_apply_with at h
  split at h
  · simp at h
  · split at h
    · simp at h
    · rename_i res heq
      cases h
      exact ⟨rfl, applyOps_length heq⟩

theorem targetedBonus_apply_ok {tb : TargetedBonus} {r r' : Roll}
    (h : tb.apply r = .ok r') :
    r'.results_original = r.results_original ∧
    r'.results.length = r.results.length := by
  unfold TargetedBonus.apply at h
  exact bonus_apply_with_ok h

theorem bonuses_go_ok :
    ∀ (tbs : List TargetedBonus) (r : Roll) (r' : Roll),
      bonuses_go tbs r = .ok r' →
      r'.results_original = r.results_original ∧
      r'.results.length = r.results.length := by
  intro tbs
  induction tbs with
  | nil =>
      intro r r' h
      cases h
      exact ⟨rfl, rfl⟩
  | cons tb rest ih =>
      intro r r' h
      rw [bonuses_go] at h
      split at h
      · simp at h
      · rename_i r1 heq
        obtain ⟨h1, h2⟩ := targetedBonus_apply_ok heq
        obtain ⟨h3, h4⟩ := ih _ _ h
        exact ⟨h3.trans h1, h4.trans h2⟩

theorem process_targeted_bonuses_ok {r r' : Roll}
    (h : r.process_targeted_bonuses = .ok r') :
    r'.results_original = r.results_original ∧
    r'.results.length = r.results.length :=
  bonuses_go_ok _ _ _ h

theorem stage_pipeline_ok {r1 : Roll} {g1 : RNG} {out : Roll × RNG}
    (h : stage_pipeline r1 g1 = .ok out) :
    out.1.results_original = r1.results_original ∧
    out.1.results.length ≤ r1.results.length := by
  unfold stage_pipeline at h
  split at h
  · simp at h
  · rename_i r2 hk
    split at h
    · simp at h
    · rename_i r3 hd
      split at h
      · simp at h
      · rename_i r4 g2 hr
        split at h
        · simp at h
        · rename_i r6 hb
          cases h
          obtain ⟨k1, k2⟩ := process_keeps_ok hk
          obtain ⟨d1, d2⟩ := process_drops_ok hd
          obtain ⟨rr1, rr2⟩ := process_rerolls_ok hr
          obtain ⟨e1, e2⟩ := process_explosion_ok r4 g2
          obtain ⟨b1, b2⟩ := process_targeted_bonuses_ok hb
          dsimp only at rr1 rr2 ⊢
          constructor
          · rw [b1, e1, rr1, d1, k1]
          · calc r6.results.length = _ := b2
              _ = r4.results.length := e2
              _ = r3.results.length := rr2
              _ ≤ r2.results.length := d2
              _ ≤ r1.results.length := k2.length_le

theorem process_ok_facts {r : Roll} {g : RNG} {out : Roll × RNG}
    (h : r.process g = .ok out) :
    out.1.results_original =
      (drawList r.range.low r.range.high r.quantity g).1 ∧
    out.1.results.length ≤ out.1.results_original.length := by
  unfold Roll.process at h
  obtain ⟨h1, h2⟩ := stage_pipeline_ok h
  dsimp only at h1 h2
  rw [List.length_map] at h2
  refine ⟨h1, ?_⟩
  rw [h1]
  exact h2

/-- C1.  The claim states that `r / n` is the dice group scalar total
divided by `n` and `n / r` is `n` divided by the total.  The code is
wrong: the class defines `__truediv__` twice and the second, shadowing
definition computes `other / self.total_value`, so `RollResult([8],[8]) / 2`
evaluates to `2 / 8 = 1/4` instead of the claimed `8 / 2 = 4` (and
`n / r` raises `TypeError`, since no `__rtruediv__` exists).  This
theorem evaluates the effective method at that failing input. -/
theorem truediv_swaps_operands :
    RollResult.truediv_num ⟨[8], [8]⟩ 2 = .ok (1 / 4) ∧
    (1 / 4 : ℚ) ≠ 8 / 2 := by
  have htot : (RollResult.mk [8] [8]).total_value = 8 := by
    simp [RollResult.total_value]
  constructor
  · rw [RollResult.truediv_num, htot]
    rw [if_neg (by norm_num : ¬(8 : ℚ) = 0)]
    have hq : (2 : ℚ) / 8 = 1 / 4 := by norm_num
    rw [hq]
  · norm_num

/-- C2.  The claim states an extra die is drawn exactly when the
current value matches AT LEAST ONE explosion condition.  The code is
wrong: `_check_value_meets_explosion_conditions` resets the flag on
every loop iteration and returns it only after the loop, so only the
LAST condition counts.  On `expRoll` (conditions `=6, =5`, value 6)
the check returns `false` although the first condition matches, and
`process_explosion` draws nothing. -/
theorem explosion_check_uses_only_last_condition :
    expRoll.check_value_meets_explosion_conditions 6 = false ∧
    cond_met expRoll ⟨ConditionType.c_equ, 6, none⟩ 6 = true ∧
    (expRoll.process_explosion sampleG).1.results = [6] :=
  ⟨rfl, rfl, rfl⟩

/-- C3.  The claim states the whole restricted-tier pipeline runs
inside the 2-second timeboxed unit and a budget overrun yields a
Timeout with no result.  The code is wrong: in `transformer_nongm` the
`with ThreadingTimeout(2)` block contains only the `assert`, every
pipeline stage runs after the block, so even with stage costs far
beyond the budget the pipeline completes and returns its result (the
timeout branch is unreachable), while the sibling
`transformer_default` with identical stage costs does time out. -/
theorem nongm_pipeline_runs_outside_timebox :
    transformer_nongm_pipeline.staged_inside = [] ∧
    run_supervised transformer_nongm_pipeline (fun _ => 100) =
      .ok [.parse, .base_transform, .explode_limit, .reroll_limit,
        .dice_roll, .math_transform] ∧
    run_supervised transformer_default_pipeline (fun _ => 100) =
      .error (.hard "The roll timed out (2s).") :=
  ⟨rfl, rfl, rfl⟩

/-- C4.  For every validated roll (with a well-formed range), a
successful `process` first draws exactly `quantity` integers in
`[low, high]`, copies them into `results` (as rationals) and into
`results_original`, and then applies the modifier stages in the fixed
order keep → drop → reroll → explosion → targeted bonus (the
`stage_pipeline` composition). -/
theorem process_draws_then_applies_stages_in_order
    (r : Roll) (g : RNG) (out : Roll × RNG)
    (hlh : r.range.low ≤ r.range.high)
    (h : r.process g = .ok out) :
    ∃ draws g1,
      drawList r.range.low r.range.high r.quantity g = (draws, g1) ∧
      draws.length = r.quantity ∧
      (∀ x ∈ draws, r.range.low ≤ x ∧ x ≤ r.range.high) ∧
      stage_pipeline
        { r with
          results := draws.map (fun v => (Int.cast v : ℚ))
          results_original := draws } g1 = .ok out ∧
      out.1.results_original = draws := by
  refine ⟨(drawList r.range.low r.range.high r.quantity g).1,
          (drawList r.range.low r.range.high r.quantity g).2,
          rfl, drawList_length _ _ _ _, drawList_mem _ _ hlh _ _, ?_, ?_⟩
  · unfold Roll.process at h
    exact h
  · exact (process_ok_facts h).1

/-- Witness for C4 at the concrete `2d6` roll `sampleRoll` with stream
`sampleG`. -/
theorem process_draws_then_applies_stages_in_order_witness :
    sampleRoll.range.low ≤ sampleRoll.range.high ∧
    (∃ draws g1,
      drawList sampleRoll.range.low sampleRoll.range.high
        sampleRoll.quantity sampleG = (draws, g1) ∧
      draws.length = sampleRoll.quantity ∧
      (∀ x ∈ draws, sampleRoll.range.low ≤ x ∧ x ≤ sampleRoll.range.high) ∧
      stage_pipeline
        { sampleRoll with
          results := draws.map (fun v => (Int.cast v : ℚ))
          results_original := draws } g1 = .ok sampleOut ∧
      sampleOut.1.results_original = draws) :=
  ⟨by decide,
   process_draws_then_applies_stages_in_order sampleRoll sampleG sampleOut
     (by decide) rfl⟩

/-- C5.  The dice-quantity checker: zero dice is always the hard
error, a quantity above the cap is the upsell error without
`gamemaster` and the hard error with it, a nonzero quantity within the
cap passes through unchanged, and the two error kinds are distinct. -/
theorem check_qty_tiered_limits (cap q : Nat) (gm : Bool) :
    check_qty cap gm 0 = .error (.hard "You can\x27t roll zero dice!") ∧
    (cap < q → check_qty cap false q =
      .error (.upsell ("You can\x27t increase the dice quantity past " ++
        toString cap ++ " without Rollplayer Gamemaster."))) ∧
    (cap < q → check_qty cap true q =
      .error (.hard ("The quantity limit of " ++ toString cap ++
        " was reached."))) ∧
    (q ≠ 0 → q ≤ cap → check_qty cap gm q = .ok q) ∧
    (∀ m m', RollErr.upsell m ≠ RollErr.hard m') := by
  refine ⟨?_, ?_, ?_, ?_, ?_⟩
  · simp [check_qty]
  · intro hlt
    have h0 : q ≠ 0 := by omega
    simp [check_qty, h0, Nat.not_le.mpr hlt]
  · intro hlt
    have h0 : q ≠ 0 := by omega
    simp [check_qty, h0, Nat.not_le.mpr hlt]
  · intro h0 hle
    simp [check_qty, h0, hle]
  · intro m m' hcontra
    simp at hcontra

/-- Witness for C5 at the documented tier caps: 2000 dice at cap 1000
without gamemaster upsells, 20000 at cap 10000 with gamemaster is the
hard error, 500 at cap 1000 passes, 0 is always the hard error. -/
theorem check_qty_tiered_limits_witness :
    check_qty 1000 false 2000 =
      .error (.upsell ("You can\x27t increase the dice quantity past " ++
        toString 1000 ++ " without Rollplayer Gamemaster.")) ∧
    check_qty 10000 true 20000 =
      .error (.hard ("The quantity limit of " ++ toString 10000 ++
        " was reached.")) ∧
    check_qty 1000 true 500 = .ok 500 ∧
    check_qty 1000 false 0 = .error (.hard "You can\x27t roll zero dice!") :=
  ⟨(check_qty_tiered_limits 1000 2000 false).2.1 (by decide),
   (check_qty_tiered_limits 10000 20000 true).2.2.1 (by decide),
   (check_qty_tiered_limits 1000 500 true).2.2.2.1 (by decide) (by decide),
   (check_qty_tiered_limits 1000 0 false).1⟩

/-- C6.  No modifier stage mutates `results_original`; after a
successful `process` the field still holds exactly the initially drawn
values, and `results` is never longer than `results_original`. -/
theorem results_original_immutable
    (r : Roll) (g : RNG) (out : Roll × RNG)
    (h : r.process g = .ok out) :
    (∀ r', r.process_keeps = .ok r' →
      r'.results_original = r.results_original) ∧
    (∀ r', r.process_drops = .ok r' →
      r'.results_original = r.results_original) ∧
    (∀ o, r.process_rerolls g = .ok o →
      o.1.results_original = r.results_original) ∧
    (r.process_explosion g).1.results_original = r.results_original ∧
    (∀ r', r.process_targeted_bonuses = .ok r' →
      r'.results_original = r.results_original) ∧
    out.1.results_original =
      (drawList r.range.low r.range.high r.quantity g).1 ∧
    out.1.results.length ≤ out.1.results_original.length :=
  ⟨fun _ h' => (process_keeps_ok h').1,
   fun _ h' => (process_drops_ok h').1,
   fun _ h' => (process_rerolls_ok h').1,
   (process_explosion_ok r g).1,
   fun _ h' => (process_targeted_bonuses_ok h').1,
   (process_ok_facts h).1,
   (process_ok_facts h).2⟩

/-- Witness for C6 at the concrete `2d6` roll. -/
theorem results_original_immutable_witness :
    (∀ r', sampleRoll.process_keeps = .ok r' →
      r'.results_original = sampleRoll.results_original) ∧
    (∀ r', sampleRoll.process_drops = .ok r' →
      r'.results_original = sampleRoll.results_original) ∧
    (∀ o, sampleRoll.process_rerolls sampleG = .ok o →
      o.1.results_original = sampleRoll.results_original) ∧
    (sampleRoll.process_explosion sampleG).1.results_original =
      sampleRoll.results_original ∧
    (∀ r', sampleRoll.process_targeted_bonuses = .ok r' →
      r'.results_original = sampleRoll.results_original) ∧
    sampleOut.1.results_original =
      (drawList sampleRoll.range.low sampleRoll.range.high
        sampleRoll.quantity sampleG).1 ∧
    sampleOut.1.results.length ≤ sampleOut.1.results_original.length :=
  results_original_immutable sampleRoll sampleG sampleOut rfl

/-- C7.  With at least one keep present, the keep stage keeps at most
`min (n + m) q` elements (n, m the keep quantities, absent = 0, q the
current length) and the survivors form a sub-multiset of the original
results (multiplicities respected); with both quantities zero it
raises the hard keep-nothing error. -/
theorem process_keeps_bounds_and_multiset (r : Roll)
    (hpres : r.modifiers.keep_higher.isSome ∨ r.modifiers.keep_lower.isSome) :
    (0 < keep_qty r.modifiers.keep_higher + keep_qty r.modifiers.keep_lower →
      ∃ r', r.process_keeps = .ok r' ∧
        r'.results.length ≤
          min (keep_qty r.modifiers.keep_higher +
            keep_qty r.modifiers.keep_lower) r.results.length ∧
        (r'.results : Multiset ℚ) ≤ (r.results : Multiset ℚ)) ∧
    ((keep_qty r.modifiers.keep_higher = 0 ∧
        keep_qty r.modifiers.keep_lower = 0) →
      r.process_keeps = .error (.hard "You can\x27t keep nothing!")) := by
  have hcond : (r.modifiers.keep_higher.isNone &&
      r.modifiers.keep_lower.isNone) = false := by
    rcases hpres with h | h
    · rcases Option.isSome_iff_exists.mp h with ⟨k, hk⟩
      simp [hk]
    · rcases Option.isSome_iff_exists.mp h with ⟨k, hk⟩
      simp [hk]
  constructor
  · intro hpos
    have hz : ¬(keep_qty r.modifiers.keep_higher = 0 ∧
        keep_qty r.modifiers.keep_lower = 0) := by omega
    have hk : r.process_keeps = .ok { r with results :=
        (keepFilter r.results
          ((if 0 < keep_qty r.modifiers.keep_lower then
              nsmallest (keep_qty r.modifiers.keep_lower) r.results
            else []) ++
           (if 0 < keep_qty r.modifiers.keep_higher then
              nlargest (keep_qty r.modifiers.keep_higher) r.results
            else []))) } := by
      unfold Roll.process_keeps
      rw [if_neg (by rw [hcond]; simp)]
      rw [if_neg hz]
    refine ⟨_, hk, ?_, ?_⟩
    · refine Nat.le_min.mpr ⟨?_, ?_⟩
      · refine le_trans (keepFilter_length_le _ _) ?_
        rw [List.length_append]
        have hl : (if 0 < keep_qty r.modifiers.keep_lower then
            nsmallest (keep_qty r.modifiers.keep_lower) r.results
          else []).length ≤ keep_qty r.modifiers.keep_lower := by
          split
          · rw [nsmallest_length]; omega
          · simp
        have hh : (if 0 < keep_qty r.modifiers.keep_higher then
            nlargest (keep_qty r.modifiers.keep_higher) r.results
          else []).length ≤ keep_qty r.modifiers.keep_higher := by
          split
          · rw [nlargest_length]; omega
          · simp
        omega
      · exact (keepFilter_sublist _ _).length_le
    · exact Multiset.coe_le.mpr (keepFilter_sublist _ _).subperm
  · intro hz
    unfold Roll.process_keeps
    rw [if_neg (by rw [hcond]; simp)]
    rw [if_pos hz]

/-- Witness for C7 at the spec example: `[10,10,3,7,1]` with `kh2`. -/
theorem process_keeps_bounds_and_multiset_witness :
    (keepRoll.modifiers.keep_higher.isSome ∨
      keepRoll.modifiers.keep_lower.isSome) ∧
    (∃ r', keepRoll.process_keeps = .ok r' ∧
      r'.results.length ≤
        min (keep_qty keepRoll.modifiers.keep_higher +
          keep_qty keepRoll.modifiers.keep_lower) keepRoll.results.length ∧
      (r'.results : Multiset ℚ) ≤ (keepRoll.results : Multiset ℚ)) :=
  ⟨Or.inl (by decide),
   (process_keeps_bounds_and_multiset keepRoll (Or.inl (by decide))).1
     (by decide)⟩

/-- C8.  For one reroll clause, the number of executed redraw rounds
never exceeds the clause limit, and when the clause finishes either no
current value matches any of its conditions or exactly `limit` rounds
were executed. -/
theorem reroll_clause_rounds_invariant
    (rr : Reroll) (r : Roll) (g : RNG) (out : Roll × RNG × Nat)
    (h : r.process_reroll_clause rr g = .ok out) :
    out.2.2 ≤ rr.limit.toNat ∧
    (out.1.reroll_matches rr = .ok [] ∨ out.2.2 = rr.limit.toNat) := by
  unfold Roll.process_reroll_clause at h
  obtain ⟨_, _, h3, h4⟩ := rerollLoop_ok _ _ _ _ h
  exact ⟨h3, h4⟩

/-- Witness for C8 at the concrete clause `rr{=1}:5` on a roll holding
a 1 (with `sampleG` the clause stops after two rounds with no match). -/
theorem reroll_clause_rounds_invariant_witness :
    rerollOut.2.2 ≤ sampleRerollClause.limit.toNat ∧
    (rerollOut.1.reroll_matches sampleRerollClause = .ok [] ∨
      rerollOut.2.2 = sampleRerollClause.limit.toNat) :=
  reroll_clause_rounds_invariant sampleRerollClause rerollRoll sampleG
    rerollOut rfl

/-- C9.  Negation of a `RollResult` negates every element of `results`,
leaves `results_original` untouched, and is an involution (negating
twice restores the record); the in-place Python mutation is modelled by
the returned record. -/
theorem neg_maps_results_preserves_original (r : RollResult) :
    r.neg.results = r.results.map (fun x => -x) ∧
    r.neg.results_original = r.results_original ∧
    r.neg.neg = r := by
  refine ⟨rfl, rfl, ?_⟩
  cases r with
  | mk res orig =>
      simp [RollResult.neg, List.map_map, Function.comp_def, neg_neg]

/-- C10.  The keep stage only filters positions: the surviving results
are a subsequence (order-preserving sublist) of the pre-keep results. -/
theorem process_keeps_preserves_order (r r' : Roll)
    (h : r.process_keeps = .ok r') :
    r'.results.Sublist r.results :=
  (process_keeps_ok h).2

/-- Witness for C10 at the spec keep example. -/
theorem process_keeps_preserves_order_witness :
    keepOut.results.Sublist keepRoll.results :=
  process_keeps_preserves_order keepRoll keepOut rfl

end Rollplayer
